import Mathlib

/- A shallow embedding of the Bible Verse Drawing Application
   (src/app.py and src/database.py): the relational store with its three
   tables, the draw assignment operation, the admin verse management
   operations, and the email validation of the HTTP boundary.

   Modelling conventions:
   - SQL rows become structures, tables become lists kept in insertion
     order, autoincrement ids become counters in the store record.
   - Timestamps (CURRENT_TIMESTAMP defaults) are modelled as a Nat the
     caller supplies to each writing operation.
   - random.choice over the verse rows is modelled by an arbitrary index
     k the caller supplies, reduced modulo the pool size.
   - The UNIQUE(email) constraint of user_draws lives in the storage
     insert, which rejects a duplicate with an error value; the source
     has no handler for that error, so it propagates out of the draw.
   - SQLite does not enforce the verse_id foreign key by default, so
     deleting a verse is unconditional and may leave dangling draws,
     matching the behaviour the spec documents. -/

namespace Verset

/-! Character and string helpers mirroring the Python methods used by
    the source: str.lower, str.strip, and the email regex of app.py. -/

/-- The whitespace characters Python str.strip removes, by code point:
    space 32, tab 9, newline 10, vertical tab 11, form feed 12,
    carriage return 13. -/
def pySpace (c : Char) : Bool :=
  c.toNat == 32 || c.toNat == 9 || c.toNat == 10 ||
    c.toNat == 11 || c.toNat == 12 || c.toNat == 13

/-- Python str.lower: the validated email alphabet is ASCII, so the
    basic latin case mapping of Char.toLower is the faithful model. -/
def lowerStr (s : String) : String := ⟨s.data.map Char.toLower⟩

/-- Python str.strip on a character list: drop pySpace characters from
    both ends. -/
def stripList (cs : List Char) : List Char :=
  ((cs.dropWhile pySpace).reverse.dropWhile pySpace).reverse

/-- Python str.strip. -/
def stripStr (s : String) : String := ⟨stripList s.data⟩

/-- The normalization draw_verse_for_user applies before any lookup or
    write: Python email.lower().strip(). -/
def normalizeEmail (email : String) : String := stripStr (lowerStr email)

/-- The character class of the local part in the regex of app.py. -/
def localChar (c : Char) : Bool :=
  c.isAlphanum || c == '.' || c == '_' || c == '%' || c == '+' || c == '-'

/-- The character class of the domain in the regex of app.py. -/
def domainChar (c : Char) : Bool :=
  c.isAlphanum || c == '.' || c == '-'

/-- Whether a whole character list is in the language of the anchored
    pattern of is_valid_email: a nonempty local part, an at sign, then a
    domain that a dot splits from a trailing top level domain of at
    least two letters. The letters-only top level part cannot hold a
    dot, so the split is at the last dot after the at sign. -/
def emailCore (cs : List Char) : Bool :=
  let l := cs.takeWhile (fun c => c != '@')
  match cs.dropWhile (fun c => c != '@') with
  | '@' :: r =>
    let rrev := r.reverse
    let t := (rrev.takeWhile (fun c => c != '.')).reverse
    let d := ((rrev.dropWhile (fun c => c != '.')).drop 1).reverse
    (!l.isEmpty) && l.all localChar &&
      rrev.any (fun c => c == '.') && (!d.isEmpty) && d.all domainChar &&
      decide (2 ≤ t.length) && t.all Char.isAlpha
  | _ => false

/-- Models is_valid_email of app.py: re.match with the anchored email
    pattern; the dollar anchor of a Python regex also matches just
    before one trailing newline. -/
def is_valid_email (email : String) : Bool :=
  if email.data.getLast? == some '\n' then emailCore email.data.dropLast
  else emailCore email.data

/-! The data model: the three tables created by init_db. -/

/-- A row of the verses table: id INTEGER PRIMARY KEY AUTOINCREMENT,
    text NOT NULL, reference NOT NULL, created_at DEFAULT
    CURRENT_TIMESTAMP. -/
structure Verse where
  id : Nat
  text : String
  reference : String
  created_at : Nat
deriving Repr, DecidableEq

/-- A row of the user_draws table: id autoincrement, email TEXT UNIQUE
    NOT NULL, verse_id, first_name, last_name, drawn_at DEFAULT
    CURRENT_TIMESTAMP. -/
structure UserDraw where
  id : Nat
  email : String
  verse_id : Nat
  first_name : Option String
  last_name : Option String
  drawn_at : Nat
deriving Repr, DecidableEq

/-- A row of the admin table: id autoincrement, username TEXT UNIQUE
    NOT NULL, password_hash NOT NULL. -/
structure AdminRow where
  id : Nat
  username : String
  password_hash : String
deriving Repr, DecidableEq

/-- The relational store: the three tables in insertion order and their
    autoincrement counters. -/
structure DB where
  verses : List Verse
  user_draws : List UserDraw
  admin : List AdminRow
  next_verse_id : Nat
  next_draw_id : Nat
  next_admin_id : Nat
deriving Repr, DecidableEq

/-- A store whose three tables exist and are still empty; SQLite
    autoincrement ids start at 1. -/
def emptyDB : DB := ⟨[], [], [], 1, 1, 1⟩

/-- A storage error surfaced to the caller: the UNIQUE(email)
    constraint of user_draws rejected an insert (sqlite3.IntegrityError
    or psycopg2 UniqueViolation). -/
inductive DBError where
  | uniqueViolation
deriving Repr, DecidableEq

/-! Initialization: init_db of database.py. -/

/-- The eight seed verses init_db inserts when the verses table is
    empty. -/
def sample_verses : List (String × String) :=
  [("Car Dieu a tant aimé le monde qu'il a donné son Fils unique, afin que quiconque croit en lui ne périsse point, mais qu'il ait la vie éternelle.", "Jean 3:16"),
   ("L'Éternel est mon berger: je ne manquerai de rien.", "Psaume 23:1"),
   ("Je puis tout par celui qui me fortifie.", "Philippiens 4:13"),
   ("Confie-toi en l'Éternel de tout ton cœur, Et ne t'appuie pas sur ta sagesse.", "Proverbes 3:5"),
   ("Car je connais les projets que j'ai formés sur vous, dit l'Éternel, projets de paix et non de malheur, afin de vous donner un avenir et de l'espérance.", "Jérémie 29:11"),
   ("Ne crains point, car je suis avec toi; Ne promène pas des regards inquiets, car je suis ton Dieu.", "Ésaïe 41:10"),
   ("Venez à moi, vous tous qui êtes fatigués et chargés, et je vous donnerai du repos.", "Matthieu 11:28"),
   ("L'amour est patient, il est plein de bonté; l'amour n'est point envieux; l'amour ne se vante point.", "1 Corinthiens 13:4")]

/-- The first half of the seeding in init_db: INSERT the default admin
    row when SELECT COUNT on admin gives 0. The werkzeug password
    hashing primitive is an external collaborator passed in as hash. -/
def seed_admin (hash : String → String) (db : DB) : DB :=
  if db.admin.length = 0 then
    { db with admin := db.admin ++ [⟨db.next_admin_id, "admin", hash "admin123"⟩],
              next_admin_id := db.next_admin_id + 1 }
  else db

/-- The second half of the seeding in init_db: INSERT the sample verses
    when SELECT COUNT on verses gives 0, each with the next
    autoincrement id. -/
def seed_verses (now : Nat) (db : DB) : DB :=
  if db.verses.length = 0 then
    { db with
      verses := db.verses ++ (sample_verses.enum.map
        (fun p => ⟨db.next_verse_id + p.1, p.2.1, p.2.2, now⟩)),
      next_verse_id := db.next_verse_id + sample_verses.length }
  else db

/-- Models init_db of database.py. CREATE TABLE IF NOT EXISTS is
    implicit in the model, where the store record always carries its
    three tables; then the default admin and the sample verses are
    seeded, each only when its table is empty. -/
def init_db (hash : String → String) (now : Nat) (db : DB) : DB :=
  seed_verses now (seed_admin hash db)

/-! Verse operations of database.py. -/

/-- Insertion into a list already sorted by weakly descending key. -/
def insertDescBy {α : Type} (key : α → Nat) (x : α) : List α → List α
  | [] => [x]
  | y :: ys => if key y ≤ key x then x :: y :: ys else y :: insertDescBy key x ys

/-- Insertion sort by descending key: the model of ORDER BY key DESC. -/
def sortDescBy {α : Type} (key : α → Nat) : List α → List α
  | [] => []
  | x :: xs => insertDescBy key x (sortDescBy key xs)

/-- Models get_all_verses: SELECT id, text, reference, created_at FROM
    verses ORDER BY id DESC. -/
def get_all_verses (db : DB) : List Verse :=
  sortDescBy Verse.id db.verses

/-- Models add_verse: INSERT INTO verses (text, reference) and return
    the fresh id (lastrowid, or RETURNING id on PostgreSQL). -/
def add_verse (text reference : String) (now : Nat) (db : DB) : Nat × DB :=
  (db.next_verse_id,
   { db with verses := db.verses ++ [⟨db.next_verse_id, text, reference, now⟩],
             next_verse_id := db.next_verse_id + 1 })

/-- Models delete_verse: DELETE FROM verses WHERE id equals the
    argument; the Bool is rowcount greater than zero. -/
def delete_verse (verse_id : Nat) (db : DB) : Bool × DB :=
  let remaining := db.verses.filter (fun v => v.id != verse_id)
  (decide (remaining.length < db.verses.length), { db with verses := remaining })

/-! User draw operations of database.py. -/

/-- A row of the SELECT in check_user_draw: v.id, v.text, v.reference,
    ud.drawn_at, ud.first_name, ud.last_name. -/
structure CheckRow where
  id : Nat
  text : String
  reference : String
  drawn_at : Nat
  first_name : Option String
  last_name : Option String
deriving Repr, DecidableEq

/-- Models check_user_draw: the user_draws rows whose email column
    equals the lowercased argument, inner joined with verses on
    verse_id = id; fetchone takes the first row when one exists. -/
def check_user_draw (email : String) (db : DB) : Option CheckRow :=
  ((db.user_draws.filter (fun ud => ud.email == lowerStr email)).flatMap (fun ud =>
    (db.verses.filter (fun v => v.id == ud.verse_id)).map (fun v =>
      CheckRow.mk v.id v.text v.reference ud.drawn_at ud.first_name ud.last_name))).head?

/-- The storage layer INSERT INTO user_draws: the UNIQUE(email)
    constraint rejects the row when one with the same email column
    exists, otherwise the row is appended with the next autoincrement
    id. -/
def insert_user_draw (email : String) (verse_id : Nat)
    (first_name last_name : Option String) (now : Nat) (db : DB) : Except DBError DB :=
  if db.user_draws.any (fun ud => ud.email == email) then .error .uniqueViolation
  else .ok { db with
    user_draws := db.user_draws ++ [⟨db.next_draw_id, email, verse_id, first_name, last_name, now⟩],
    next_draw_id := db.next_draw_id + 1 }

/-- The verse dict of a fresh draw: SELECT id, text, reference. -/
structure VerseInfo where
  id : Nat
  text : String
  reference : String
deriving Repr, DecidableEq

/-- The dict draw_verse_for_user returns when it does not raise: the
    verse pairing together with the already_drawn flag, false on the
    fresh path and true on the re-read path. -/
inductive DrawVerse where
  | fresh (v : VerseInfo)
  | existing (row : CheckRow)
deriving Repr, DecidableEq

/-- The already_drawn flag of the returned dict. -/
def DrawVerse.already_drawn : DrawVerse → Bool
  | .fresh _ => false
  | .existing _ => true

/-- The part of draw_verse_for_user that runs after a missed existence
    check: read the verse pool (a None result when it is empty), pick
    one row (random.choice modelled by the caller supplied index k),
    and insert the draw row. A constraint violation from the insert
    propagates: the source wraps it in no handler. -/
def draw_pick_and_insert (k : Nat) (email : String)
    (first_name last_name : Option String) (now : Nat) (db : DB) :
    Except DBError (Option DrawVerse × DB) :=
  match db.verses with
  | [] => .ok (none, db)
  | v :: vs =>
    let chosen := (v :: vs).get ⟨k % (v :: vs).length, Nat.mod_lt k (Nat.succ_pos vs.length)⟩
    match insert_user_draw email chosen.id first_name last_name now db with
    | .error e => .error e
    | .ok db1 => .ok (some (.fresh ⟨chosen.id, chosen.text, chosen.reference⟩), db1)

/-- Models draw_verse_for_user: lowercase and strip the email, return
    the existing joined row tagged already drawn when the check finds
    one (leaving the store untouched), else run the pick and insert
    path. -/
def draw_verse_for_user (k : Nat) (email : String)
    (first_name last_name : Option String) (now : Nat) (db : DB) :
    Except DBError (Option DrawVerse × DB) :=
  match check_user_draw (normalizeEmail email) db with
  | some row => .ok (some (.existing row), db)
  | none => draw_pick_and_insert k (normalizeEmail email) first_name last_name now db

/-! Admin statistics and draw listing of database.py. -/

/-- The result of get_draw_stats: SELECT COUNT on user_draws and on
    verses. -/
structure Stats where
  total_draws : Nat
  total_verses : Nat
deriving Repr, DecidableEq

/-- Models get_draw_stats: the two direct row counts. -/
def get_draw_stats (db : DB) : Stats :=
  ⟨db.user_draws.length, db.verses.length⟩

/-- A row of the SELECT in get_all_draws: ud.email, ud.verse_id,
    ud.drawn_at, ud.first_name, ud.last_name, v.text, v.reference. -/
structure DrawListRow where
  email : String
  verse_id : Nat
  drawn_at : Nat
  first_name : Option String
  last_name : Option String
  text : String
  reference : String
deriving Repr, DecidableEq

/-- The inner join of user_draws with verses on verse_id = id. -/
def drawsJoinVerses (db : DB) : List DrawListRow :=
  db.user_draws.flatMap (fun ud =>
    (db.verses.filter (fun v => v.id == ud.verse_id)).map (fun v =>
      DrawListRow.mk ud.email ud.verse_id ud.drawn_at ud.first_name ud.last_name v.text v.reference))

/-- Models get_all_draws: the inner join, ORDER BY drawn_at DESC. -/
def get_all_draws (db : DB) : List DrawListRow :=
  sortDescBy DrawListRow.drawn_at (drawsJoinVerses db)

/-! The HTTP boundary: the draw_verse route of app.py. -/

/-- The JSON body of POST /api/draw-verse; a missing field is none. -/
structure DrawBody where
  email : Option String
  first_name : Option String
  last_name : Option String
deriving Repr, DecidableEq

/-- The responses of the draw endpoint: HTTP 400 for a missing or
    malformed email, HTTP 404 when the pool is empty, HTTP 200 with the
    drawn verse, and an unhandled storage exception (HTTP 500). -/
inductive ApiResp where
  | badRequest
  | notFound
  | ok (result : DrawVerse)
  | serverError (e : DBError)
deriving Repr, DecidableEq

/-- Models the draw_verse route of app.py: a missing body or email
    field gives 400, a stripped email failing is_valid_email gives 400,
    a None from draw_verse_for_user gives 404, otherwise 200; empty
    first and last names are passed on as None. -/
def api_draw_verse (body : Option DrawBody) (k : Nat) (now : Nat) (db : DB) :
    ApiResp × DB :=
  match body with
  | none => (.badRequest, db)
  | some data =>
    match data.email with
    | none => (.badRequest, db)
    | some e =>
      let email := stripStr e
      if !is_valid_email email then (.badRequest, db)
      else
        let fn := stripStr (data.first_name.getD "")
        let ln := stripStr (data.last_name.getD "")
        match draw_verse_for_user k email (if fn == "" then none else some fn)
            (if ln == "" then none else some ln) now db with
        | .error er => (.serverError er, db)
        | .ok (none, db1) => (.notFound, db1)
        | .ok (some r, db1) => (.ok r, db1)

/-! Reachability: the stores the application can produce. -/

/-- The store after an operation that may raise: a raised error aborts
    the request before commit, leaving the store as it was. -/
def dbAfter (r : Except DBError (Option DrawVerse × DB)) (db : DB) : DB :=
  match r with
  | .ok (_, db1) => db1
  | .error _ => db

/-- The stores reachable from a fresh database through the operations
    of the application. The race step is the continuation of a draw
    whose existence check already missed: its pick and insert phase
    runs against a store that another call may have changed first, with
    the already normalized email the enclosing draw computed. -/
inductive Reachable : DB → Prop where
  | empty : Reachable emptyDB
  | init (hash : String → String) (now : Nat) {db : DB} :
      Reachable db → Reachable (init_db hash now db)
  | add (text reference : String) (now : Nat) {db : DB} :
      Reachable db → Reachable (add_verse text reference now db).2
  | del (verse_id : Nat) {db : DB} :
      Reachable db → Reachable (delete_verse verse_id db).2
  | draw (k : Nat) (email : String) (fn ln : Option String) (now : Nat) {db : DB} :
      Reachable db → Reachable (dbAfter (draw_verse_for_user k email fn ln now db) db)
  | race (k : Nat) (email : String) (fn ln : Option String) (now : Nat) {db : DB} :
      Reachable db →
      Reachable (dbAfter (draw_pick_and_insert k (normalizeEmail email) fn ln now db) db)

/-! Concrete stores used as inputs of witnesses and counterexamples. -/

/-- A store with one verse and no draw. -/
def oneVerseDB : DB := ⟨[⟨1, "Je puis tout par celui qui me fortifie.", "Philippiens 4:13", 0⟩], [], [], 2, 1, 1⟩

/-- The store after the race winner inserted its draw row into
    oneVerseDB for the identity a@b.co. -/
def raceWonDB : DB :=
  ⟨[⟨1, "Je puis tout par celui qui me fortifie.", "Philippiens 4:13", 0⟩],
   [⟨1, "a@b.co", 1, none, none, 1⟩], [], 2, 2, 1⟩

/-- A store holding a dangling draw: the identity a@b.co drew verse 5,
    verse 5 was deleted, and one other verse remains in the pool. -/
def danglingDB : DB :=
  ⟨[⟨1, "Je puis tout par celui qui me fortifie.", "Philippiens 4:13", 0⟩],
   [⟨1, "a@b.co", 5, none, none, 1⟩], [], 6, 2, 1⟩

/-- A store where the only verse has been drawn by a@b.co. -/
def drawnVerseDB : DB :=
  ⟨[⟨1, "Je puis tout par celui qui me fortifie.", "Philippiens 4:13", 0⟩],
   [⟨1, "a@b.co", 1, none, none, 5⟩], [], 2, 2, 1⟩

/-- A store with two verses, both drawn, used to exercise the draw
    listing with one dangling and one live row. -/
def twoDrawsDB : DB :=
  ⟨[⟨1, "Je puis tout par celui qui me fortifie.", "Philippiens 4:13", 0⟩,
    ⟨2, "Venez à moi, vous tous qui êtes fatigués et chargés, et je vous donnerai du repos.", "Matthieu 11:28", 0⟩],
   [⟨1, "a@b.co", 1, none, none, 5⟩, ⟨2, "c@d.org", 2, none, none, 7⟩],
   [], 3, 3, 1⟩

/-- A concrete hashing collaborator for witnesses. -/
def hashW : String → String := fun s => String.append "hashed:" s

/-- A store reached by initializing the empty store and then drawing
    once for A@B.co. -/
def reachedDB : DB :=
  dbAfter (draw_verse_for_user 0 "A@B.co" none none 1 (init_db hashW 0 emptyDB))
    (init_db hashW 0 emptyDB)

/-! Lemmas about the character and string helpers. -/

theorem toLower_eq_of_upper {c : Char} (h1 : 65 ≤ c.toNat) (h2 : c.toNat ≤ 90) :
    c.toLower = Char.ofNat (c.toNat + 32) := by
  unfold Char.toLower
  rw [if_pos ⟨h1, h2⟩]

theorem toLower_eq_of_not_upper {c : Char} (h : ¬(65 ≤ c.toNat ∧ c.toNat ≤ 90)) :
    c.toLower = c := by
  unfold Char.toLower
  rw [if_neg h]

theorem toNat_ofNat_lower {n : Nat} (h1 : 97 ≤ n) (h2 : n ≤ 122) :
    (Char.ofNat n).toNat = n := by
  interval_cases n <;> decide

theorem toLower_toLower (c : Char) : c.toLower.toLower = c.toLower := by
  by_cases h : 65 ≤ c.toNat ∧ c.toNat ≤ 90
  · rw [toLower_eq_of_upper h.1 h.2]
    apply toLower_eq_of_not_upper
    rw [toNat_ofNat_lower (by omega) (by omega)]
    omega
  · rw [toLower_eq_of_not_upper h, toLower_eq_of_not_upper h]

theorem pySpace_toLower (c : Char) : pySpace c.toLower = pySpace c := by
  by_cases h : 65 ≤ c.toNat ∧ c.toNat ≤ 90
  · rw [toLower_eq_of_upper h.1 h.2]
    have hl : pySpace (Char.ofNat (c.toNat + 32)) = false := by
      have h1 : 97 ≤ c.toNat + 32 := by omega
      have h2 : c.toNat + 32 ≤ 122 := by omega
      generalize c.toNat + 32 = n at h1 h2
      interval_cases n <;> decide
    have hr : pySpace c = false := by
      simp only [pySpace, Bool.or_eq_false_iff, beq_eq_false_iff_ne, ne_eq]
      omega
    rw [hl, hr]
  · rw [toLower_eq_of_not_upper h]

theorem dropWhile_dropWhile (p : α → Bool) (l : List α) :
    (l.dropWhile p).dropWhile p = l.dropWhile p := by
  induction l with
  | nil => rfl
  | cons x xs ih =>
    by_cases h : p x
    · simp [List.dropWhile_cons, h, ih]
    · simp [List.dropWhile_cons, h]

theorem dropWhile_append_singleton {p : α → Bool} {x : α} (hx : p x = false)
    (l : List α) : (l ++ [x]).dropWhile p = l.dropWhile p ++ [x] := by
  induction l with
  | nil => simp [List.dropWhile_cons, hx]
  | cons y ys ih =>
    by_cases h : p y
    · simp [List.dropWhile_cons, h, ih]
    · simp [List.dropWhile_cons, h]

theorem dropWhile_stripList (cs : List Char) :
    (stripList cs).dropWhile pySpace = stripList cs := by
  unfold stripList
  cases ha : cs.dropWhile pySpace with
  | nil => simp
  | cons x xs =>
    have hself : (x :: xs).dropWhile pySpace = x :: xs := by
      rw [← ha]; exact dropWhile_dropWhile pySpace cs
    have hx : pySpace x = false := by
      have hhead := List.dropWhile_eq_self_iff.mp hself (by simp)
      simpa using hhead
    rw [List.reverse_cons, dropWhile_append_singleton hx, List.reverse_append]
    simp [List.dropWhile_cons, hx]

theorem stripList_stripList (cs : List Char) :
    stripList (stripList cs) = stripList cs := by
  have h1 := dropWhile_stripList cs
  show (((stripList cs).dropWhile pySpace).reverse.dropWhile pySpace).reverse = stripList cs
  rw [h1]
  show ((((cs.dropWhile pySpace).reverse.dropWhile pySpace).reverse.reverse).dropWhile pySpace).reverse = _
  rw [List.reverse_reverse, dropWhile_dropWhile]
  rfl

theorem dropWhile_pySpace_map_toLower (l : List Char) :
    (l.map Char.toLower).dropWhile pySpace = (l.dropWhile pySpace).map Char.toLower := by
  rw [List.dropWhile_map]
  have hfun : (pySpace ∘ Char.toLower) = pySpace := funext pySpace_toLower
  rw [hfun]

theorem stripList_map_toLower (l : List Char) :
    stripList (l.map Char.toLower) = (stripList l).map Char.toLower := by
  unfold stripList
  rw [dropWhile_pySpace_map_toLower, ← List.map_reverse, dropWhile_pySpace_map_toLower,
    ← List.map_reverse]

theorem lowerStr_stripStr (s : String) : lowerStr (stripStr s) = stripStr (lowerStr s) := by
  show (⟨(stripList s.data).map Char.toLower⟩ : String) = ⟨stripList (s.data.map Char.toLower)⟩
  rw [stripList_map_toLower]

theorem lowerStr_lowerStr (s : String) : lowerStr (lowerStr s) = lowerStr s := by
  show (⟨(s.data.map Char.toLower).map Char.toLower⟩ : String) = ⟨s.data.map Char.toLower⟩
  rw [List.map_map]
  have hfun : (Char.toLower ∘ Char.toLower) = Char.toLower := funext toLower_toLower
  rw [hfun]

theorem lowerStr_normalizeEmail (s : String) :
    lowerStr (normalizeEmail s) = normalizeEmail s := by
  unfold normalizeEmail
  rw [lowerStr_stripStr, lowerStr_lowerStr]

theorem normalizeEmail_normalizeEmail (s : String) :
    normalizeEmail (normalizeEmail s) = normalizeEmail s := by
  show stripStr (lowerStr (normalizeEmail s)) = normalizeEmail s
  rw [lowerStr_normalizeEmail]
  show (⟨stripList (stripList (lowerStr s).data)⟩ : String) = stripStr (lowerStr s)
  rw [stripList_stripList]
  rfl

/-! Lemmas about the descending insertion sort. -/

theorem mem_insertDescBy {α : Type} (key : α → Nat) (x y : α) (l : List α) :
    y ∈ insertDescBy key x l ↔ y = x ∨ y ∈ l := by
  induction l with
  | nil => simp [insertDescBy]
  | cons z zs ih =>
    unfold insertDescBy
    by_cases h : key z ≤ key x
    · simp [h]
    · simp only [h, if_false, List.mem_cons, ih]
      tauto

theorem length_insertDescBy {α : Type} (key : α → Nat) (x : α) (l : List α) :
    (insertDescBy key x l).length = l.length + 1 := by
  induction l with
  | nil => rfl
  | cons z zs ih =>
    unfold insertDescBy
    by_cases h : key z ≤ key x
    · simp [h]
    · simp only [h, if_false, List.length_cons, ih]

theorem length_sortDescBy {α : Type} (key : α → Nat) (l : List α) :
    (sortDescBy key l).length = l.length := by
  induction l with
  | nil => rfl
  | cons z zs ih =>
    show (insertDescBy key z (sortDescBy key zs)).length = zs.length + 1
    rw [length_insertDescBy, ih]

theorem mem_sortDescBy {α : Type} (key : α → Nat) (x : α) (l : List α) :
    x ∈ sortDescBy key l ↔ x ∈ l := by
  induction l with
  | nil => simp [sortDescBy]
  | cons z zs ih =>
    show x ∈ insertDescBy key z (sortDescBy key zs) ↔ _
    rw [mem_insertDescBy, ih]
    simp

theorem sortDescBy_append_max {α : Type} (key : α → Nat) (x : α) (l : List α)
    (h : ∀ y ∈ l, key y < key x) :
    sortDescBy key (l ++ [x]) = x :: sortDescBy key l := by
  induction l with
  | nil => rfl
  | cons z zs ih =>
    have hz : key z < key x := h z (by simp)
    have ihz : sortDescBy key (zs ++ [x]) = x :: sortDescBy key zs :=
      ih (fun y hy => h y (by simp [hy]))
    show insertDescBy key z (sortDescBy key (zs ++ [x])) = _
    rw [ihz]
    unfold insertDescBy
    rw [if_neg (by omega)]
    rfl

/-! Lemmas about the relational reads. -/

theorem flatMap_nil_fun {α β : Type} (l : List α) :
    (l.flatMap fun _ => ([] : List β)) = [] := by
  induction l with
  | nil => rfl
  | cons z zs ih => simpa using ih

theorem filter_id_eq_nil {verses : List Verse} {x : Nat}
    (h : ∀ v ∈ verses, v.id ≠ x) :
    verses.filter (fun v => v.id == x) = [] := by
  rw [List.filter_eq_nil_iff]
  intro v hv
  simpa using h v hv

theorem filter_id_singleton {verses : List Verse}
    (h : (verses.map Verse.id).Nodup) {c : Verse} (hc : c ∈ verses) :
    verses.filter (fun v => v.id == c.id) = [c] := by
  induction verses with
  | nil => cases hc
  | cons v vs ih =>
    rw [List.map_cons, List.nodup_cons] at h
    rcases List.mem_cons.1 hc with heq | hc2
    · subst heq
      rw [List.filter_cons_of_pos (by simp)]
      have hnil : vs.filter (fun w => w.id == c.id) = [] := by
        apply filter_id_eq_nil
        intro w hw hwid
        exact h.1 (hwid ▸ List.mem_map_of_mem Verse.id hw)
      rw [hnil]
    · have hne : v.id ≠ c.id := by
        intro heq
        exact h.1 (heq ▸ List.mem_map_of_mem Verse.id hc2)
      rw [List.filter_cons_of_neg (by simpa using hne)]
      exact ih h.2 hc2

theorem filter_email_eq_nil {draws : List UserDraw} {em : String}
    (h : draws.any (fun ud => ud.email == em) = false) :
    draws.filter (fun ud => ud.email == em) = [] := by
  rw [List.filter_eq_nil_iff]
  intro ud hud
  have hne := List.any_eq_false.mp h ud hud
  simpa using hne

theorem check_user_draw_none_of_fresh {db : DB} {em : String}
    (hkey : lowerStr em = em)
    (h : db.user_draws.any (fun ud => ud.email == em) = false) :
    check_user_draw em db = none := by
  unfold check_user_draw
  rw [hkey, filter_email_eq_nil h]
  rfl

theorem check_user_draw_none_of_no_verses {db : DB} (em : String)
    (h : db.verses = []) : check_user_draw em db = none := by
  unfold check_user_draw
  rw [h]
  simp only [List.filter_nil, List.map_nil, flatMap_nil_fun]
  rfl

theorem draw_pick_and_insert_fresh {db : DB} {em : String} (k : Nat)
    (fn ln : Option String) (now : Nat) {w : Verse} {ws : List Verse}
    (hv : db.verses = w :: ws)
    (hfresh : db.user_draws.any (fun ud => ud.email == em) = false) :
    ∃ (c : Verse) (db1 : DB), c ∈ db.verses ∧
      draw_pick_and_insert k em fn ln now db =
        .ok (some (.fresh ⟨c.id, c.text, c.reference⟩), db1) ∧
      db1.verses = db.verses ∧ db1.admin = db.admin ∧
      db1.user_draws = db.user_draws ++ [⟨db.next_draw_id, em, c.id, fn, ln, now⟩] := by
  have hgoal : draw_pick_and_insert k em fn ln now db = .ok (some (.fresh ⟨((w :: ws).get ⟨k % (w :: ws).length, Nat.mod_lt k (Nat.succ_pos ws.length)⟩).id, ((w :: ws).get ⟨k % (w :: ws).length, Nat.mod_lt k (Nat.succ_pos ws.length)⟩).text, ((w :: ws).get ⟨k % (w :: ws).length, Nat.mod_lt k (Nat.succ_pos ws.length)⟩).reference⟩), { db with user_draws := db.user_draws ++ [⟨db.next_draw_id, em, ((w :: ws).get ⟨k % (w :: ws).length, Nat.mod_lt k (Nat.succ_pos ws.length)⟩).id, fn, ln, now⟩], next_draw_id := db.next_draw_id + 1 }) := by
    unfold draw_pick_and_insert
    rw [hv]
    simp only [insert_user_draw, hfresh]
    rw [hv]
    rfl
  refine ⟨_, _, ?_, hgoal, rfl, rfl, rfl⟩
  rw [hv]
  exact List.get_mem _ _ _

theorem check_user_draw_after_insert {db db1 : DB} {em : String} {c : Verse}
    (hids : (db.verses.map Verse.id).Nodup) (hc : c ∈ db.verses)
    (hkey : lowerStr em = em)
    (hfresh : db.user_draws.any (fun ud => ud.email == em) = false)
    {fn ln : Option String} {now : Nat}
    (hv1 : db1.verses = db.verses)
    (hu1 : db1.user_draws = db.user_draws ++ [⟨db.next_draw_id, em, c.id, fn, ln, now⟩]) :
    check_user_draw em db1 = some ⟨c.id, c.text, c.reference, now, fn, ln⟩ := by
  unfold check_user_draw
  rw [hkey, hu1, hv1, List.filter_append, filter_email_eq_nil hfresh]
  rw [List.filter_cons_of_pos (by simp)]
  simp only [List.filter_nil, List.nil_append, List.flatMap_cons, List.flatMap_nil,
    List.append_nil]
  rw [filter_id_singleton hids hc]
  rfl

/-- C1: for a well-formed fresh identity, two draws whose inputs agree
    up to letter case and surrounding whitespace return the same verse,
    the first tagged already_drawn false and the second already_drawn
    true, and the second call writes nothing: it returns the store of
    the first call unchanged. -/
theorem draw_twice_same_verse (db : DB) (e1 e2 : String) (k1 k2 now1 now2 : Nat)
    (fn1 ln1 fn2 ln2 : Option String)
    (hvalid : is_valid_email e1 = true)
    (hnorm : normalizeEmail e1 = normalizeEmail e2)
    (hids : (db.verses.map Verse.id).Nodup)
    (hfresh : db.user_draws.any (fun ud => ud.email == normalizeEmail e1) = false)
    (hpool : db.verses ≠ []) :
    ∃ (v : VerseInfo) (db1 : DB) (row : CheckRow),
      draw_verse_for_user k1 e1 fn1 ln1 now1 db = .ok (some (.fresh v), db1) ∧
      draw_verse_for_user k2 e2 fn2 ln2 now2 db1 = .ok (some (.existing row), db1) ∧
      row.id = v.id ∧ row.text = v.text ∧ row.reference = v.reference ∧
      (DrawVerse.fresh v).already_drawn = false ∧
      (DrawVerse.existing row).already_drawn = true := by
  cases hv : db.verses with
  | nil => exact absurd hv hpool
  | cons w ws =>
    have hkey : lowerStr (normalizeEmail e1) = normalizeEmail e1 := lowerStr_normalizeEmail e1
    have hchk : check_user_draw (normalizeEmail e1) db = none :=
      check_user_draw_none_of_fresh hkey hfresh
    obtain ⟨c, db1, hcmem, hpick, hv1, ha1, hu1⟩ :=
      draw_pick_and_insert_fresh k1 fn1 ln1 now1 hv hfresh
    have h1 : draw_verse_for_user k1 e1 fn1 ln1 now1 db
        = .ok (some (.fresh ⟨c.id, c.text, c.reference⟩), db1) := by
      unfold draw_verse_for_user
      rw [hchk]
      exact hpick
    have h2 : check_user_draw (normalizeEmail e1) db1
        = some ⟨c.id, c.text, c.reference, now1, fn1, ln1⟩ :=
      check_user_draw_after_insert hids hcmem hkey hfresh hv1 hu1
    have h3 : draw_verse_for_user k2 e2 fn2 ln2 now2 db1
        = .ok (some (.existing ⟨c.id, c.text, c.reference, now1, fn1, ln1⟩), db1) := by
      unfold draw_verse_for_user
      rw [← hnorm, h2]
    exact ⟨⟨c.id, c.text, c.reference⟩, db1, ⟨c.id, c.text, c.reference, now1, fn1, ln1⟩,
      h1, h3, rfl, rfl, rfl, rfl, rfl⟩

/-- Witness for C1 at a concrete store and pair of emails differing in
    case and surrounding whitespace. -/
theorem draw_twice_same_verse_witness :
    ∃ (v : VerseInfo) (db1 : DB) (row : CheckRow),
      draw_verse_for_user 0 "A@B.co" none none 1 oneVerseDB = .ok (some (.fresh v), db1) ∧
      draw_verse_for_user 5 " a@b.co " (some "J") none 2 db1 = .ok (some (.existing row), db1) ∧
      row.id = v.id ∧ row.text = v.text ∧ row.reference = v.reference ∧
      (DrawVerse.fresh v).already_drawn = false ∧
      (DrawVerse.existing row).already_drawn = true :=
  draw_twice_same_verse oneVerseDB "A@B.co" " a@b.co " 0 5 1 2 none none (some "J") none
    (by decide) (by decide) (by decide) (by decide) (by decide)

/-- C9: a dangling identity, whose draw row references a deleted verse,
    is invisible to the existence check (an inner join), so the draw
    proceeds to insert a fresh row, the UNIQUE(email) constraint rejects
    it, and the error propagates out of draw_verse_for_user instead of
    an idempotent re-read result. -/
theorem dangling_redraw_raises (db : DB) (email : String) (k now : Nat)
    (fn ln : Option String)
    (hcheck : check_user_draw (normalizeEmail email) db = none)
    (hrec : db.user_draws.any (fun ud => ud.email == normalizeEmail email) = true)
    (hpool : db.verses ≠ []) :
    draw_verse_for_user k email fn ln now db = .error .uniqueViolation := by
  cases hv : db.verses with
  | nil => exact absurd hv hpool
  | cons w ws =>
    unfold draw_verse_for_user
    rw [hcheck]
    show draw_pick_and_insert k (normalizeEmail email) fn ln now db = _
    unfold draw_pick_and_insert
    rw [hv]
    simp only [insert_user_draw, hrec]
    rfl

/-- Witness for C9: the store danglingDB holds a draw of the deleted
    verse 5 for a@b.co and one live verse. -/
theorem dangling_redraw_raises_witness :
    draw_verse_for_user 3 "a@b.co" none none 9 danglingDB = .error .uniqueViolation :=
  dangling_redraw_raises danglingDB "a@b.co" 3 9 none none (by decide) (by decide) (by decide)

/-- C2 counterexample: both racing calls observe no record for a@b.co in
    oneVerseDB; the winner commits, reaching raceWonDB; the loser
    continuation then surfaces the constraint violation as an error
    instead of returning the winner verse tagged already drawn. -/
theorem race_loser_counterexample :
    check_user_draw "a@b.co" oneVerseDB = none ∧
    dbAfter (draw_verse_for_user 0 "a@b.co" none none 1 oneVerseDB) oneVerseDB = raceWonDB ∧
    draw_pick_and_insert 0 "a@b.co" none none 2 raceWonDB = .error .uniqueViolation :=
  ⟨rfl, rfl, rfl⟩

/-- C2 amended: the storage uniqueness constraint rejects the losing
    insert, and the loser does not fall back to the lookup path: its
    pick and insert continuation surfaces the violation as an error and
    writes nothing. -/
theorem race_loser_error (db : DB) (em : String) (k now : Nat) (fn ln : Option String)
    (hrec : db.user_draws.any (fun ud => ud.email == em) = true)
    (hpool : db.verses ≠ []) :
    draw_pick_and_insert k em fn ln now db = .error .uniqueViolation ∧
    dbAfter (draw_pick_and_insert k em fn ln now db) db = db := by
  cases hv : db.verses with
  | nil => exact absurd hv hpool
  | cons w ws =>
    have h : draw_pick_and_insert k em fn ln now db = .error .uniqueViolation := by
      unfold draw_pick_and_insert
      rw [hv]
      simp only [insert_user_draw, hrec]
      rfl
    exact ⟨h, by rw [h]; rfl⟩

/-- Witness for the amended C2 at the concrete race stores. -/
theorem race_loser_error_witness :
    draw_pick_and_insert 0 "a@b.co" none none 2 raceWonDB = .error .uniqueViolation ∧
    dbAfter (draw_pick_and_insert 0 "a@b.co" none none 2 raceWonDB) raceWonDB = raceWonDB :=
  race_loser_error raceWonDB "a@b.co" 0 2 none none (by decide) (by decide)

/-- C5: with an empty verse pool and an identity that has no draw row,
    the draw endpoint answers 404 (no verses available) and leaves the
    store unchanged. -/
theorem empty_pool_draw_404 (db : DB) (body : DrawBody) (e : String) (k now : Nat)
    (hemail : body.email = some e)
    (hvalid : is_valid_email (stripStr e) = true)
    (hpool : db.verses = [])
    (hfresh : db.user_draws.any (fun ud => ud.email == normalizeEmail (stripStr e)) = false) :
    api_draw_verse (some body) k now db = (.notFound, db) := by
  have hchk : check_user_draw (normalizeEmail (stripStr e)) db = none :=
    check_user_draw_none_of_no_verses _ hpool
  have hdraw : ∀ fn ln : Option String,
      draw_verse_for_user k (stripStr e) fn ln now db = .ok (none, db) := by
    intro fn ln
    unfold draw_verse_for_user
    rw [hchk]
    show draw_pick_and_insert k (normalizeEmail (stripStr e)) fn ln now db = _
    unfold draw_pick_and_insert
    rw [hpool]
  simp only [api_draw_verse, hemail, hvalid, Bool.not_true, Bool.false_eq_true, if_false]
  rw [hdraw]

/-- Witness for C5 at the freshly initialized empty store. -/
theorem empty_pool_draw_404_witness :
    api_draw_verse (some ⟨some "a@b.co", none, none⟩) 0 3 emptyDB = (.notFound, emptyDB) :=
  empty_pool_draw_404 emptyDB ⟨some "a@b.co", none, none⟩ "a@b.co" 0 3 rfl (by decide)
    rfl (by decide)

/-- C6: an email that fails validation after the endpoint trims it is
    answered with 400 and the store is untouched: no draw row is
    created. -/
theorem invalid_email_400 (db : DB) (body : DrawBody) (e : String) (k now : Nat)
    (hemail : body.email = some e)
    (hinvalid : is_valid_email (stripStr e) = false) :
    api_draw_verse (some body) k now db = (.badRequest, db) := by
  simp only [api_draw_verse, hemail]
  simp [hinvalid]

/-- Witness for C6 at a malformed email. -/
theorem invalid_email_400_witness :
    api_draw_verse (some ⟨some "not-an-email", none, some "X"⟩) 1 4 oneVerseDB
      = (.badRequest, oneVerseDB) :=
  invalid_email_400 oneVerseDB ⟨some "not-an-email", none, some "X"⟩ "not-an-email" 1 4
    rfl (by decide)

/-- C4 counterexample: after verse 1 (drawn by a@b.co) is deleted from
    drawnVerseDB, the draw row is still stored but listDraws returns the
    empty list: the record is omitted entirely rather than returned with
    nulled verse fields. -/
theorem delete_then_list_counterexample :
    (delete_verse 1 drawnVerseDB).2.user_draws = [⟨1, "a@b.co", 1, none, none, 5⟩] ∧
    get_all_draws (delete_verse 1 drawnVerseDB).2 = [] :=
  ⟨rfl, rfl⟩

/-- C4 amended: deleting a verse leaves every draw row in place and a
    later listDraws does not crash, but the inner join omits any row
    whose verse was deleted: no returned record references the deleted
    verse. -/
theorem delete_then_list_omits_record (db : DB) (vid : Nat) :
    (delete_verse vid db).2.user_draws = db.user_draws ∧
    ((get_all_draws (delete_verse vid db).2).all fun r => r.verse_id != vid) = true := by
  refine ⟨rfl, ?_⟩
  rw [List.all_eq_true]
  intro r hr
  simp only [get_all_draws] at hr
  rw [mem_sortDescBy] at hr
  simp only [drawsJoinVerses, delete_verse, List.mem_flatMap, List.mem_map,
    List.mem_filter, bne_iff_ne, beq_iff_eq] at hr ⊢
  obtain ⟨ud, hud, v, ⟨⟨hvmem, hvne⟩, hvid⟩, hrow⟩ := hr
  subst hrow
  show ud.verse_id ≠ vid
  rw [← hvid]
  exact hvne

/-- C7: adding a verse puts it first in the most-recent-first listing,
    deleting it succeeds and removes it from the listing, and deleting
    it a second time reports failure (the endpoint answers 404 not
    found). -/
theorem add_list_delete_scenario (db : DB) (t r : String) (now : Nat)
    (hids : ∀ v ∈ db.verses, v.id < db.next_verse_id) :
    (get_all_verses (add_verse t r now db).2).head? =
        some ⟨db.next_verse_id, t, r, now⟩ ∧
    (delete_verse (add_verse t r now db).1 (add_verse t r now db).2).1 = true ∧
    ((get_all_verses (delete_verse (add_verse t r now db).1 (add_verse t r now db).2).2).all
        fun v => v.id != (add_verse t r now db).1) = true ∧
    (delete_verse (add_verse t r now db).1
        (delete_verse (add_verse t r now db).1 (add_verse t r now db).2).2).1 = false := by
  have hsort : get_all_verses (add_verse t r now db).2 =
      (⟨db.next_verse_id, t, r, now⟩ : Verse) :: sortDescBy Verse.id db.verses := by
    show sortDescBy Verse.id (db.verses ++ [(⟨db.next_verse_id, t, r, now⟩ : Verse)]) = _
    exact sortDescBy_append_max Verse.id _ db.verses (fun y hy => hids y hy)
  have hfilter : (db.verses ++ [(⟨db.next_verse_id, t, r, now⟩ : Verse)]).filter
      (fun v => v.id != db.next_verse_id) =
      db.verses.filter (fun v => v.id != db.next_verse_id) := by
    rw [List.filter_append]
    simp
  have hflen : (db.verses.filter (fun v => v.id != db.next_verse_id)).length ≤
      db.verses.length := List.length_filter_le _ _
  refine ⟨?_, ?_, ?_, ?_⟩
  · rw [hsort]; rfl
  · show decide (((db.verses ++ [(⟨db.next_verse_id, t, r, now⟩ : Verse)]).filter
        (fun v => v.id != db.next_verse_id)).length <
        (db.verses ++ [(⟨db.next_verse_id, t, r, now⟩ : Verse)]).length) = true
    rw [hfilter, decide_eq_true_eq, List.length_append]
    simp only [List.length_cons, List.length_nil]
    omega
  · rw [List.all_eq_true]
    intro v hv
    have hv2 : v ∈ (db.verses ++ [(⟨db.next_verse_id, t, r, now⟩ : Verse)]).filter
        (fun w => w.id != db.next_verse_id) := (mem_sortDescBy Verse.id v _).mp hv
    show (v.id != db.next_verse_id) = true
    exact (List.mem_filter.mp hv2).2
  · have hself : ((db.verses ++ [(⟨db.next_verse_id, t, r, now⟩ : Verse)]).filter
        (fun v => v.id != db.next_verse_id)).filter (fun v => v.id != db.next_verse_id) =
        (db.verses ++ [(⟨db.next_verse_id, t, r, now⟩ : Verse)]).filter
          (fun v => v.id != db.next_verse_id) := by
      rw [List.filter_eq_self]
      intro a ha
      show (a.id != db.next_verse_id) = true
      exact (List.mem_filter.mp ha).2
    show decide ((((db.verses ++ [(⟨db.next_verse_id, t, r, now⟩ : Verse)]).filter
        (fun v => v.id != db.next_verse_id)).filter (fun v => v.id != db.next_verse_id)).length <
        ((db.verses ++ [(⟨db.next_verse_id, t, r, now⟩ : Verse)]).filter
          (fun v => v.id != db.next_verse_id)).length) = false
    rw [hself]
    exact decide_eq_false (lt_irrefl _)

/-- Witness for C7 at the store twoDrawsDB. -/
theorem add_list_delete_scenario_witness :
    (get_all_verses (add_verse "Heureux les doux." "Matthieu 5:5" 9 twoDrawsDB).2).head? =
        some ⟨3, "Heureux les doux.", "Matthieu 5:5", 9⟩ ∧
    (delete_verse (add_verse "Heureux les doux." "Matthieu 5:5" 9 twoDrawsDB).1
        (add_verse "Heureux les doux." "Matthieu 5:5" 9 twoDrawsDB).2).1 = true ∧
    ((get_all_verses (delete_verse (add_verse "Heureux les doux." "Matthieu 5:5" 9 twoDrawsDB).1
        (add_verse "Heureux les doux." "Matthieu 5:5" 9 twoDrawsDB).2).2).all
        fun v => v.id != (add_verse "Heureux les doux." "Matthieu 5:5" 9 twoDrawsDB).1) = true ∧
    (delete_verse (add_verse "Heureux les doux." "Matthieu 5:5" 9 twoDrawsDB).1
        (delete_verse (add_verse "Heureux les doux." "Matthieu 5:5" 9 twoDrawsDB).1
          (add_verse "Heureux les doux." "Matthieu 5:5" 9 twoDrawsDB).2).2).1 = false :=
  add_list_delete_scenario twoDrawsDB "Heureux les doux." "Matthieu 5:5" 9 (by decide)

/-! Initialization lemmas for C8. -/

theorem seed_admin_verses_eq (hash : String → String) (db : DB) :
    (seed_admin hash db).verses = db.verses := by
  unfold seed_admin
  split <;> rfl

theorem seed_admin_nonempty (hash : String → String) (db : DB) :
    (seed_admin hash db).admin.length ≠ 0 := by
  unfold seed_admin
  split
  · simp
  · next h => exact h

theorem seed_verses_admin_eq (now : Nat) (db : DB) :
    (seed_verses now db).admin = db.admin := by
  unfold seed_verses
  split <;> rfl

theorem seed_verses_nonempty (now : Nat) (db : DB) :
    (seed_verses now db).verses.length ≠ 0 := by
  unfold seed_verses
  split
  · simp [sample_verses]
  · next h => exact h

theorem seed_admin_noop {hash : String → String} {db : DB}
    (ha : db.admin.length ≠ 0) : seed_admin hash db = db := by
  unfold seed_admin
  rw [if_neg ha]

theorem seed_verses_noop {now : Nat} {db : DB}
    (hv : db.verses.length ≠ 0) : seed_verses now db = db := by
  unfold seed_verses
  rw [if_neg hv]

theorem init_db_init_db (hash1 hash2 : String → String) (now1 now2 : Nat) (db : DB) :
    init_db hash2 now2 (init_db hash1 now1 db) = init_db hash1 now1 db := by
  have ha : (init_db hash1 now1 db).admin.length ≠ 0 := by
    show (seed_verses now1 (seed_admin hash1 db)).admin.length ≠ 0
    rw [seed_verses_admin_eq]
    exact seed_admin_nonempty hash1 db
  have hv : (init_db hash1 now1 db).verses.length ≠ 0 := seed_verses_nonempty now1 _
  show seed_verses now2 (seed_admin hash2 (init_db hash1 now1 db)) = init_db hash1 now1 db
  rw [seed_admin_noop ha, seed_verses_noop hv]

/-- C8: initialization is idempotent. On the empty store it seeds one
    default admin row, whose stored password is the hash of the well
    known default, and the fixed eight starter verses with fresh ids and
    no draw rows; running init_db again on any store it already
    initialized changes nothing, so seed data is never duplicated. -/
theorem init_db_idempotent_seeds (hash : String → String) (now1 now2 : Nat) (db : DB)
    (hempty : db = emptyDB) :
    (init_db hash now1 db).admin = [⟨1, "admin", hash "admin123"⟩] ∧
    (init_db hash now1 db).verses =
      sample_verses.enum.map (fun p => ⟨1 + p.1, p.2.1, p.2.2, now1⟩) ∧
    (init_db hash now1 db).user_draws = [] ∧
    (∀ d : DB, init_db hash now2 (init_db hash now1 d) = init_db hash now1 d) := by
  subst hempty
  exact ⟨rfl, rfl, rfl, fun d => init_db_init_db hash hash now1 now2 d⟩

/-- Witness for C8 with a concrete hashing collaborator. -/
theorem init_db_idempotent_seeds_witness :
    (init_db hashW 0 emptyDB).admin = [⟨1, "admin", hashW "admin123"⟩] ∧
    (init_db hashW 0 emptyDB).verses =
      sample_verses.enum.map (fun p => ⟨1 + p.1, p.2.1, p.2.2, 0⟩) ∧
    (init_db hashW 0 emptyDB).user_draws = [] ∧
    (∀ d : DB, init_db hashW 7 (init_db hashW 0 d) = init_db hashW 0 d) :=
  init_db_idempotent_seeds hashW 0 7 emptyDB rfl

/-! Join counting lemmas for C10. -/

theorem filter_id_length_le_one {verses : List Verse}
    (h : (verses.map Verse.id).Nodup) (x : Nat) :
    (verses.filter fun v => v.id == x).length ≤ 1 := by
  induction verses with
  | nil => simp
  | cons v vs ih =>
    rw [List.map_cons, List.nodup_cons] at h
    by_cases hx : v.id = x
    · rw [List.filter_cons_of_pos (by simpa using hx)]
      have hnil : vs.filter (fun w => w.id == x) = [] := by
        apply filter_id_eq_nil
        intro w hw heq
        exact h.1 (hx ▸ heq ▸ List.mem_map_of_mem Verse.id hw)
      rw [hnil]
      simp
    · rw [List.filter_cons_of_neg (by simpa using hx)]
      exact ih h.2

theorem join_length_le {verses : List Verse}
    (hids : (verses.map Verse.id).Nodup) (draws : List UserDraw) :
    ((draws.flatMap fun ud => (verses.filter fun v => v.id == ud.verse_id).map fun v =>
        DrawListRow.mk ud.email ud.verse_id ud.drawn_at ud.first_name ud.last_name
          v.text v.reference).length ≤ draws.length)
    ∧ (((draws.flatMap fun ud => (verses.filter fun v => v.id == ud.verse_id).map fun v =>
        DrawListRow.mk ud.email ud.verse_id ud.drawn_at ud.first_name ud.last_name
          v.text v.reference).length < draws.length) ↔
        ∃ ud ∈ draws, ∀ v ∈ verses, v.id ≠ ud.verse_id) := by
  induction draws with
  | nil => simp
  | cons d ds ih =>
    rw [List.flatMap_cons, List.length_append, List.length_map, List.length_cons]
    have hle1 : (verses.filter fun v => v.id == d.verse_id).length ≤ 1 :=
      filter_id_length_le_one hids d.verse_id
    by_cases hnil : (verses.filter fun v => v.id == d.verse_id) = []
    · have hd : ∀ v ∈ verses, v.id ≠ d.verse_id := by
        intro v hv heq
        have hmem : v ∈ verses.filter fun w => w.id == d.verse_id :=
          List.mem_filter.mpr ⟨hv, by simpa using heq⟩
        rw [hnil] at hmem
        cases hmem
      rw [hnil]
      simp only [List.length_nil, Nat.zero_add]
      refine ⟨by omega, ?_, ?_⟩
      · intro _
        exact ⟨d, by simp, hd⟩
      · intro _
        omega
    · have hpos : 0 < (verses.filter fun v => v.id == d.verse_id).length :=
        List.length_pos.mpr hnil
      have hone : (verses.filter fun v => v.id == d.verse_id).length = 1 := by omega
      have hdno : ¬ ∀ v ∈ verses, v.id ≠ d.verse_id := by
        intro hall
        exact hnil (filter_id_eq_nil hall)
      rw [hone]
      refine ⟨by omega, ?_, ?_⟩
      · intro hlt
        obtain ⟨ud, hud, hall⟩ := ih.2.mp (by omega)
        exact ⟨ud, by simp [hud], hall⟩
      · intro hex
        obtain ⟨ud, hud, hall⟩ := hex
        rcases List.mem_cons.mp hud with heq | hmem
        · exact absurd (heq ▸ hall) hdno
        · have hih := ih.2.mpr ⟨ud, hmem, hall⟩
          omega

/-- C10: getStats counts the draw table directly while listDraws inner
    joins it with verses, so the listed rows never outnumber
    total_draws, and the count is strictly smaller exactly when some
    draw row references a deleted verse. -/
theorem stats_ge_list_draws (db : DB) (hids : (db.verses.map Verse.id).Nodup) :
    ((get_all_draws db).length ≤ (get_draw_stats db).total_draws)
    ∧ ((get_all_draws db).length < (get_draw_stats db).total_draws ↔
        ∃ ud ∈ db.user_draws, ∀ v ∈ db.verses, v.id ≠ ud.verse_id) := by
  have h := join_length_le hids db.user_draws
  show ((sortDescBy DrawListRow.drawn_at (drawsJoinVerses db)).length ≤ db.user_draws.length)
    ∧ ((sortDescBy DrawListRow.drawn_at (drawsJoinVerses db)).length < db.user_draws.length ↔
        ∃ ud ∈ db.user_draws, ∀ v ∈ db.verses, v.id ≠ ud.verse_id)
  rw [length_sortDescBy]
  exact h

/-- Witness for C10: after deleting verse 1 of twoDrawsDB the stats
    still count two draws while the listing shows one row. -/
theorem stats_ge_list_draws_witness :
    ((get_all_draws (delete_verse 1 twoDrawsDB).2).length ≤
        (get_draw_stats (delete_verse 1 twoDrawsDB).2).total_draws)
    ∧ ((get_all_draws (delete_verse 1 twoDrawsDB).2).length <
        (get_draw_stats (delete_verse 1 twoDrawsDB).2).total_draws ↔
        ∃ ud ∈ (delete_verse 1 twoDrawsDB).2.user_draws,
          ∀ v ∈ (delete_verse 1 twoDrawsDB).2.verses, v.id ≠ ud.verse_id) :=
  stats_ge_list_draws (delete_verse 1 twoDrawsDB).2 (by decide)

/-! The per-identity uniqueness invariant for C3. -/

/-- The invariant the reachable stores keep: draw row emails are
    pairwise distinct, and each is a fixed point of normalization (the
    draw path only ever stores normalized emails). -/
def DrawsInv (db : DB) : Prop :=
  (db.user_draws.map UserDraw.email).Nodup ∧
  ∀ ud ∈ db.user_draws, normalizeEmail ud.email = ud.email

theorem seed_admin_user_draws (hash : String → String) (db : DB) :
    (seed_admin hash db).user_draws = db.user_draws := by
  unfold seed_admin
  split <;> rfl

theorem seed_verses_user_draws (now : Nat) (db : DB) :
    (seed_verses now db).user_draws = db.user_draws := by
  unfold seed_verses
  split <;> rfl

theorem init_db_user_draws (hash : String → String) (now : Nat) (db : DB) :
    (init_db hash now db).user_draws = db.user_draws := by
  show (seed_verses now (seed_admin hash db)).user_draws = _
  rw [seed_verses_user_draws, seed_admin_user_draws]

theorem drawsInv_congr {db1 db2 : DB} (h : db1.user_draws = db2.user_draws)
    (hinv : DrawsInv db2) : DrawsInv db1 := by
  constructor
  · rw [h]; exact hinv.1
  · rw [h]; exact hinv.2

theorem drawsInv_pick_insert {db : DB} {em : String}
    (hinv : DrawsInv db) (hem : normalizeEmail em = em)
    (k : Nat) (fn ln : Option String) (now : Nat) :
    DrawsInv (dbAfter (draw_pick_and_insert k em fn ln now db) db) := by
  cases hv : db.verses with
  | nil =>
    have hnone : draw_pick_and_insert k em fn ln now db = .ok (none, db) := by
      unfold draw_pick_and_insert
      rw [hv]
    rw [hnone]
    exact hinv
  | cons w ws =>
    by_cases hex : db.user_draws.any (fun ud => ud.email == em) = true
    · have herr : draw_pick_and_insert k em fn ln now db = .error .uniqueViolation := by
        unfold draw_pick_and_insert
        rw [hv]
        simp only [insert_user_draw, hex]
        rfl
      rw [herr]
      exact hinv
    · have hex2 : db.user_draws.any (fun ud => ud.email == em) = false := by
        cases hq : db.user_draws.any (fun ud => ud.email == em)
        · rfl
        · exact absurd hq hex
      obtain ⟨c, db1, hcmem, hpick, hv1, ha1, hu1⟩ :=
        draw_pick_and_insert_fresh k fn ln now hv hex2
      rw [hpick]
      show DrawsInv db1
      have hnotmem : em ∉ db.user_draws.map UserDraw.email := by
        intro hmem
        obtain ⟨ud, hud, heqm⟩ := List.mem_map.mp hmem
        have hne := List.any_eq_false.mp hex2 ud hud
        simp [heqm] at hne
      constructor
      · rw [hu1, List.map_append]
        show (db.user_draws.map UserDraw.email ++ [em]).Nodup
        refine List.Nodup.append hinv.1 (List.nodup_singleton em) ?_
        intro a ha2 hb2
        simp only [List.mem_singleton] at hb2
        subst hb2
        exact hnotmem ha2
      · intro ud hud
        rw [hu1] at hud
        rcases List.mem_append.mp hud with h1 | h1
        · exact hinv.2 ud h1
        · simp only [List.mem_singleton] at h1
          subst h1
          exact hem

theorem drawsInv_draw {db : DB} (hinv : DrawsInv db) (k : Nat) (email : String)
    (fn ln : Option String) (now : Nat) :
    DrawsInv (dbAfter (draw_verse_for_user k email fn ln now db) db) := by
  cases hc : check_user_draw (normalizeEmail email) db with
  | some row =>
    have heq : draw_verse_for_user k email fn ln now db = .ok (some (.existing row), db) := by
      unfold draw_verse_for_user
      rw [hc]
    rw [heq]
    exact hinv
  | none =>
    have heq : draw_verse_for_user k email fn ln now db =
        draw_pick_and_insert k (normalizeEmail email) fn ln now db := by
      unfold draw_verse_for_user
      rw [hc]
    rw [heq]
    exact drawsInv_pick_insert hinv (normalizeEmail_normalizeEmail email) k fn ln now

/-- C3: every reachable store holds at most one draw row per normalized
    email: the stored emails are pairwise distinct (the UNIQUE
    constraint of the storage insert), and two rows whose emails agree
    after normalization are the same row, so no operation sequence ever
    produces two DrawRecords for one identity. -/
theorem reachable_one_draw_per_identity (db : DB) (h : Reachable db) :
    (db.user_draws.map UserDraw.email).Nodup ∧
    ∀ r1 ∈ db.user_draws, ∀ r2 ∈ db.user_draws,
      normalizeEmail r1.email = normalizeEmail r2.email → r1 = r2 := by
  have hinv : DrawsInv db := by
    induction h with
    | empty => exact ⟨List.nodup_nil, by intro ud hud; cases hud⟩
    | init hash now hr ih => exact drawsInv_congr (init_db_user_draws hash now _) ih
    | add t rf now hr ih => exact drawsInv_congr rfl ih
    | del vid hr ih => exact drawsInv_congr rfl ih
    | draw k email fn ln now hr ih => exact drawsInv_draw ih k email fn ln now
    | race k email fn ln now hr ih =>
        exact drawsInv_pick_insert ih (normalizeEmail_normalizeEmail email) k fn ln now
  refine ⟨hinv.1, fun r1 h1 r2 h2 heq => ?_⟩
  have e1 := hinv.2 r1 h1
  have e2 := hinv.2 r2 h2
  rw [e1, e2] at heq
  exact List.inj_on_of_nodup_map hinv.1 h1 h2 heq

/-- Witness for C3 at a store reached by an initialization and one
    draw. -/
theorem reachable_one_draw_per_identity_witness :
    (reachedDB.user_draws.map UserDraw.email).Nodup ∧
    ∀ r1 ∈ reachedDB.user_draws, ∀ r2 ∈ reachedDB.user_draws,
      normalizeEmail r1.email = normalizeEmail r2.email → r1 = r2 :=
  reachable_one_draw_per_identity reachedDB
    (Reachable.draw 0 "A@B.co" none none 1 (Reachable.init hashW 0 Reachable.empty))

end Verset
